import Mathlib

/-
Verification of the TraceKit React Native SDK core pipeline, as documented in
ARCHITECTURE.md of this repository.  The SDK core sources (client.ts,
transport.ts, storage.ts) are not part of this example repository; the
definitions below are therefore modelled from the specification and from
ARCHITECTURE.md, which documents the same components.
-/

namespace Tracekit

/-- Modelled from the spec: the Durable Store operation
`appendToQueue(queueName, item)` of storage.ts (not in this repository):
enqueue with overflow policy "drop oldest" once `maxQueueSize` is reached.
All three pending queues (spans, exceptions, snapshots) use this policy. -/
def appendToQueue (maxQueueSize : Nat) (q : List α) (x : α) : List α :=
  if maxQueueSize ≤ q.length then q.tail ++ [x] else q ++ [x]

theorem appendToQueue_length_le (m : Nat) (hm : 0 < m) (q : List α) (x : α)
    (hq : q.length ≤ m) : (appendToQueue m q x).length ≤ m := by
  unfold appendToQueue
  split
  · next h =>
    cases q with
    | nil => simp at h; omega
    | cons a t => simp at hq ⊢; omega
  · next h => simp; omega

theorem foldl_appendToQueue_length_le (m : Nat) (hm : 0 < m) (items : List α) :
    ∀ q : List α, q.length ≤ m →
      (items.foldl (appendToQueue m) q).length ≤ m := by
  induction items with
  | nil => intro q hq; simpa using hq
  | cons i rest ih =>
    intro q hq
    simpa using ih (appendToQueue m q i) (appendToQueue_length_le m hm q i hq)

theorem foldl_appendToQueue_of_le (m : Nat) (items : List α) :
    ∀ q : List α, q.length + items.length ≤ m →
      items.foldl (appendToQueue m) q = q ++ items := by
  induction items with
  | nil => intro q _; simp
  | cons i rest ih =>
    intro q hq
    simp only [List.length_cons] at hq
    have hlt : ¬ m ≤ q.length := by omega
    have hstep : appendToQueue m q i = q ++ [i] := by
      unfold appendToQueue; simp [hlt]
    rw [List.foldl_cons, hstep, ih (q ++ [i]) (by simp; omega)]
    simp

theorem mem_appendToQueue (m : Nat) (q : List α) (i x : α)
    (h : x ∈ appendToQueue m q i) : x ∈ q ∨ x = i := by
  unfold appendToQueue at h
  split at h
  · rcases List.mem_append.mp h with h1 | h1
    · exact Or.inl (List.mem_of_mem_tail h1)
    · exact Or.inr (List.mem_singleton.mp h1)
  · rcases List.mem_append.mp h with h1 | h1
    · exact Or.inl h1
    · exact Or.inr (List.mem_singleton.mp h1)

theorem self_mem_appendToQueue (m : Nat) (q : List α) (i : α) :
    i ∈ appendToQueue m q i := by
  unfold appendToQueue
  split <;> simp

/-- C1: every pending queue built by a sequence of `appendToQueue` operations
from empty stays within `maxQueueSize`, and an insertion performed while the
queue is at `maxQueueSize` removes exactly the oldest (front) entry, keeps the
length at the cap, and retains the newly inserted item. -/
theorem appendToQueue_spec (m : Nat) (hm : 0 < m) (items : List α)
    (q : List α) (x : α) (hq : q.length = m) :
    (items.foldl (appendToQueue m) []).length ≤ m
    ∧ appendToQueue m q x = q.tail ++ [x]
    ∧ (appendToQueue m q x).length = m
    ∧ x ∈ appendToQueue m q x := by
  refine ⟨foldl_appendToQueue_length_le m hm items [] (by simp), ?_, ?_,
    self_mem_appendToQueue m q x⟩
  · unfold appendToQueue
    simp [hq]
  · unfold appendToQueue
    rw [if_pos hq.ge]
    cases q with
    | nil => simp at hq; omega
    | cons a t => simp at hq ⊢; omega

theorem appendToQueue_spec_witness :
    (([1, 2, 3] : List Nat).foldl (appendToQueue 2) []).length ≤ 2
    ∧ appendToQueue 2 ([5, 6] : List Nat) 7 = [5, 6].tail ++ [7]
    ∧ (appendToQueue 2 ([5, 6] : List Nat) 7).length = 2
    ∧ 7 ∈ appendToQueue 2 ([5, 6] : List Nat) 7 :=
  appendToQueue_spec 2 (by decide) [1, 2, 3] [5, 6] 7 (by decide)

/-- Modelled from the spec: a breadcrumb record (type/category/message/level
omitted fields do not affect the ring-buffer behavior under verification). -/
structure Breadcrumb where
  category : String
  message : String
  timestamp : Nat
deriving DecidableEq, Repr

/-- Modelled from the spec: `addBreadcrumb` of client.ts (not in this
repository) stores breadcrumbs in a fixed-capacity ring buffer of capacity
100 that evicts oldest-first, per ARCHITECTURE.md ("Breadcrumbs: Limited to
last 100 (FIFO queue)"). -/
def addBreadcrumb (buf : List Breadcrumb) (b : Breadcrumb) : List Breadcrumb :=
  appendToQueue 100 buf b

theorem foldl_appendToQueue_drop (cap : Nat) (hcap : 0 < cap)
    (items : List α) : ∀ q : List α, q.length ≤ cap →
      items.foldl (appendToQueue cap) q
        = (q ++ items).drop (q.length + items.length - cap) := by
  induction items with
  | nil =>
    intro q hq
    simp only [List.foldl_nil, List.append_nil, List.length_nil]
    have h0 : q.length + 0 - cap = 0 := by omega
    rw [h0, List.drop_zero]
  | cons i rest ih =>
    intro q hq
    by_cases h : q.length < cap
    · have hstep : appendToQueue cap q i = q ++ [i] := by
        unfold appendToQueue; simp; omega
      rw [List.foldl_cons, hstep, ih (q ++ [i]) (by simp; omega)]
      have e1 : (q ++ [i]) ++ rest = q ++ i :: rest := by simp
      have l1 : (q ++ [i]).length + rest.length - cap
          = q.length + (i :: rest).length - cap := by simp; omega
      rw [e1, l1]
    · have hqe : q.length = cap := by omega
      cases q with
      | nil => simp at hqe; omega
      | cons hd tl =>
        have htl : tl.length + 1 = cap := by simpa using hqe
        have hstep : appendToQueue cap (hd :: tl) i = tl ++ [i] := by
          unfold appendToQueue; simp; omega
        rw [List.foldl_cons, hstep, ih (tl ++ [i]) (by simp; omega)]
        have e1 : (tl ++ [i]) ++ rest = tl ++ i :: rest := by simp
        have e2 : (hd :: tl) ++ i :: rest = hd :: (tl ++ i :: rest) := by simp
        have l1 : (tl ++ [i]).length + rest.length - cap = rest.length := by
          simp; omega
        have l2 : (hd :: tl).length + (i :: rest).length - cap
            = rest.length + 1 := by simp; omega
        rw [e1, e2, l1, l2, List.drop_succ_cons]

/-- C8: the breadcrumb buffer is a capacity-100 ring evicting oldest-first:
after any sequence of 150 `addBreadcrumb` calls from an empty buffer, exactly
the last 100 breadcrumbs by insertion order remain, in their original
relative order. -/
theorem breadcrumb_ring_spec (items : List Breadcrumb)
    (h : items.length = 150) :
    items.foldl addBreadcrumb [] = items.drop 50 := by
  have := foldl_appendToQueue_drop 100 (by decide) items [] (by simp)
  simp [h] at this
  unfold addBreadcrumb
  simpa using this

def bcrumbs0 : List Breadcrumb :=
  (List.range 150).map fun i => { category := "c", message := "m", timestamp := i }

theorem breadcrumb_ring_witness :
    bcrumbs0.foldl addBreadcrumb [] = bcrumbs0.drop 50 :=
  breadcrumb_ring_spec bcrumbs0 (by simp [bcrumbs0])

/-- Modelled from the spec: the error taxonomy entry raised when the platform
store is inaccessible. -/
inductive StoreErr where
  | storeUnavailable
deriving DecidableEq, Repr

/-- Modelled from the spec: the item-by-item removal loop inside
`drainBatch` of storage.ts (not in this repository).  `avail i` tells whether
the underlying store is still reachable at the i-th removal step; a failure
mid-loop aborts with `storeUnavailable`. -/
def drainGo (avail : Nat → Bool) (step : Nat) :
    Nat → List α → List α → Except StoreErr (List α × List α)
  | 0, q, acc => Except.ok (acc.reverse, q)
  | _ + 1, [], acc => Except.ok (acc.reverse, [])
  | n + 1, x :: rest, acc =>
    if avail step then drainGo avail (step + 1) n rest (x :: acc)
    else Except.error StoreErr.storeUnavailable

/-- Modelled from the spec: `drainBatch(queueName, maxItems)` of storage.ts
(not in this repository): atomically removes up to `maxItems` oldest items
and returns them; if the store becomes unavailable mid-drain the operation
fails with `StoreUnavailable` and the queue is left unmodified (no partial
drain).  The result pairs the returned value with the post-call queue. -/
def drainBatch (avail : Nat → Bool) (maxItems : Nat) (q : List α) :
    Except StoreErr (List α) × List α :=
  match drainGo avail 0 maxItems q [] with
  | Except.ok (batch, rest) => (Except.ok batch, rest)
  | Except.error e => (Except.error e, q)

theorem drainGo_ok (avail : Nat → Bool) :
    ∀ (m : Nat) (q acc : List α) (step : Nat) (b r : List α),
      drainGo avail step m q acc = Except.ok (b, r) →
      b = acc.reverse ++ q.take m ∧ r = q.drop m := by
  intro m
  induction m with
  | zero =>
    intro q acc step b r h
    simp [drainGo] at h
    refine ⟨?_, ?_⟩
    · rw [← h.1]; simp
    · rw [← h.2]; simp
  | succ n ih =>
    intro q acc step b r h
    cases q with
    | nil =>
      simp [drainGo] at h
      refine ⟨?_, ?_⟩
      · rw [← h.1]; simp
      · rw [h.2]; simp
    | cons x rest =>
      unfold drainGo at h
      split at h
      · have := ih rest (x :: acc) (step + 1) b r h
        refine ⟨?_, ?_⟩
        · rw [this.1]; simp
        · rw [this.2]; simp
      · exact absurd h (by simp)

/-- C2: `drainBatch` either atomically removes and returns the up-to-maxItems
oldest items in insertion order (the returned batch is the queue's prefix,
within the size bound, and the post-call queue is the matching suffix), or
fails with `StoreUnavailable`, leaving the queue exactly as before the call. -/
theorem drainBatch_spec (avail : Nat → Bool) (m : Nat) (q : List α) :
    ((∃ b, (drainBatch avail m q).1 = Except.ok b
        ∧ b = q.take m
        ∧ (drainBatch avail m q).2 = q.drop m
        ∧ b.length ≤ m
        ∧ b ++ (drainBatch avail m q).2 = q)
      ∨ ((drainBatch avail m q).1 = Except.error StoreErr.storeUnavailable
        ∧ (drainBatch avail m q).2 = q))
    ∧ ((∀ i, avail i = true) →
        drainBatch avail m q = (Except.ok (q.take m), q.drop m)) := by
  constructor
  · cases hgo : drainGo avail 0 m q ([] : List α) with
    | ok p =>
      left
      obtain ⟨hb, hr⟩ := drainGo_ok avail m q [] 0 p.1 p.2 (by rw [hgo])
      simp at hb
      refine ⟨p.1, ?_, hb, ?_, ?_, ?_⟩
      · simp [drainBatch, hgo]
      · simp [drainBatch, hgo, hr]
      · rw [hb]; exact List.length_take_le m q
      · simp [drainBatch, hgo, hb, hr]
    | error e =>
      right
      cases e
      simp [drainBatch, hgo]
  · intro hav
    have hok : ∀ (mi : Nat) (qq acc : List α) (step : Nat),
        drainGo avail step mi qq acc
          = Except.ok (acc.reverse ++ qq.take mi, qq.drop mi) := by
      intro mi
      induction mi with
      | zero => intro qq acc step; simp [drainGo]
      | succ n ih =>
        intro qq acc step
        cases qq with
        | nil => simp [drainGo]
        | cons x rest =>
          unfold drainGo
          rw [if_pos (hav step), ih rest (x :: acc) (step + 1)]
          simp
    simp [drainBatch, hok m q [] 0]

theorem drainBatch_spec_witness :
    drainBatch (fun _ => true) 2 ([1, 2, 3] : List Nat)
      = (Except.ok [1, 2], [3]) := by
  have h := (drainBatch_spec (fun _ => true) 2 ([1, 2, 3] : List Nat)).2
    (fun i => rfl)
  simpa using h

/-- Modelled from the spec: the state the offline-aware transport of
transport.ts (not in this repository) acts on: the Durable Store pending
queue holding not-yet-sent items, plus a count of network calls performed. -/
structure TransportState (α : Type) where
  pending : List α
  networkCalls : Nat
deriving DecidableEq, Repr

/-- Modelled from the spec: one flush cycle of the offline-aware transport
(transport.ts, not in this repository): drain up to `b` oldest items from the
pending queue; if network reachability is true, perform one HTTP delivery of
the batch; if offline, skip the network call and append the batch's items
back into the pending queue under the `maxQueueSize` overflow policy. -/
def transportFlush (m b : Nat) (reachable : Bool) (s : TransportState α) :
    TransportState α :=
  let batch := s.pending.take b
  let rest := s.pending.drop b
  if reachable then
    { pending := rest, networkCalls := s.networkCalls + 1 }
  else
    { pending := batch.foldl (appendToQueue m) rest,
      networkCalls := s.networkCalls }

/-- C3: a flush while network reachability is false performs zero network
calls and re-queues every drained batch item into the pending queue, so all
batch items remain retrievable from the pending queue afterward. -/
theorem offline_flush_spec (m b : Nat) (s : TransportState α)
    (h : s.pending.length ≤ m) :
    (transportFlush m b false s).networkCalls = s.networkCalls
    ∧ (transportFlush m b false s).pending
        = s.pending.drop b ++ s.pending.take b
    ∧ ∀ x ∈ s.pending.take b, x ∈ (transportFlush m b false s).pending := by
  have hlen : (s.pending.drop b).length + (s.pending.take b).length
      ≤ m := by
    have h1 : (s.pending.drop b).length = s.pending.length - b :=
      List.length_drop b s.pending
    have h2 : (s.pending.take b).length = min b s.pending.length :=
      List.length_take b s.pending
    omega
  have hfold : (s.pending.take b).foldl (appendToQueue m) (s.pending.drop b)
      = s.pending.drop b ++ s.pending.take b :=
    foldl_appendToQueue_of_le m (s.pending.take b) (s.pending.drop b) hlen
  refine ⟨rfl, ?_, ?_⟩
  · simp only [transportFlush, Bool.false_eq_true, if_false]
    exact hfold
  · intro x hx
    simp only [transportFlush, Bool.false_eq_true, if_false]
    rw [hfold]
    exact List.mem_append_right _ hx

theorem offline_flush_witness :
    (transportFlush 5 2 false ⟨([1, 2, 3] : List Nat), 0⟩).networkCalls = 0
    ∧ (transportFlush 5 2 false ⟨([1, 2, 3] : List Nat), 0⟩).pending
        = ([1, 2, 3] : List Nat).drop 2 ++ ([1, 2, 3] : List Nat).take 2
    ∧ ∀ x ∈ ([1, 2, 3] : List Nat).take 2,
        x ∈ (transportFlush 5 2 false ⟨([1, 2, 3] : List Nat), 0⟩).pending :=
  offline_flush_spec 5 2 ⟨[1, 2, 3], 0⟩ (by decide)

/-- Modelled from the spec: the span record of types.ts (not in this
repository), restricted to the fields the verified claims mention.  Times are
abstract clock readings. -/
structure Span where
  spanId : String
  traceId : String
  parentSpanId : Option String
  name : String
  startTime : Nat
  endTime : Option Nat
deriving DecidableEq, Repr

/-- Hexadecimal digit for a value below 16 ('0'-'9' then 'a'-'f'). -/
def hexChar (n : Nat) : Char :=
  if n < 10 then Char.ofNat (48 + n) else Char.ofNat (87 + n)

def isHexChar (c : Char) : Bool :=
  c.isDigit || ('a' ≤ c && c ≤ 'f')

/-- Fixed-width big-endian hexadecimal rendering of a counter value. -/
def hexOfWidth (w n : Nat) : String :=
  String.mk ((List.range w).map fun i => hexChar (n / 16 ^ (w - 1 - i) % 16))

/-- Modelled from the spec: span-id generation (16 hex chars) of utils.ts
(not in this repository), driven by an abstract id counter. -/
def genSpanId (n : Nat) : String := hexOfWidth 16 n

/-- Modelled from the spec: trace-id generation (32 hex chars) of utils.ts
(not in this repository), driven by an abstract id counter. -/
def genTraceId (n : Nat) : String := hexOfWidth 32 n

theorem hexChar_isHex : ∀ k, k < 16 → isHexChar (hexChar k) = true := by
  decide

/-- A well-formed id of width `w`: exactly `w` characters, all hex digits. -/
def wfHexId (s : String) (w : Nat) : Prop :=
  s.length = w ∧ ∀ c ∈ s.data, isHexChar c = true

theorem hexOfWidth_wf (w n : Nat) : wfHexId (hexOfWidth w n) w := by
  constructor
  · show ((List.range w).map fun i => hexChar (n / 16 ^ (w - 1 - i) % 16)).length = w
    simp
  · intro c hc
    have hc' : c ∈ (List.range w).map fun i => hexChar (n / 16 ^ (w - 1 - i) % 16) := hc
    obtain ⟨i, _, hi⟩ := List.mem_map.mp hc'
    rw [← hi]
    exact hexChar_isHex _ (Nat.mod_lt _ (by omega))

/-- Modelled from the spec: the Client Facade state relevant to `endSpan` of
client.ts (not in this repository): the in-memory active-span table and the
pending-spans queue of the Durable Store. -/
structure ClientState where
  activeSpans : List Span
  pending : List Span
deriving DecidableEq, Repr

/-- Modelled from the spec: `endSpan(span, ...)` of client.ts (not in this
repository): if the span is still in the active table, finalize its end time,
remove it from the table and append the finalized record to the pending
queue; if the span is already ended (absent from the table), the call is a
no-op (logged as a warning, never fatal). -/
def endSpan (m now : Nat) (sid : String) (st : ClientState) : ClientState :=
  match st.activeSpans.find? (fun sp => sp.spanId == sid) with
  | some sp =>
    { activeSpans := st.activeSpans.filter (fun s => s.spanId != sid),
      pending := appendToQueue m st.pending { sp with endTime := some now } }
  | none => st

theorem find?_filter_ne_none (sid : String) (l : List Span) :
    (l.filter (fun s => s.spanId != sid)).find? (fun s => s.spanId == sid)
      = none := by
  rw [List.find?_eq_none]
  intro x hx
  have := (List.mem_filter.mp hx).2
  simpa using this

/-- C4: `endSpan` is idempotent.  A second `endSpan` on an already-ended span
changes nothing (the whole client state, pending queue included, is exactly
that after the first call), and the first call persists exactly one record of
the span to the pending queue. -/
theorem endSpan_idem (m n1 n2 : Nat) (sid : String) (st : ClientState)
    (hroom : st.pending.length < m)
    (hact : (st.activeSpans.find? (fun sp => sp.spanId == sid)).isSome) :
    endSpan m n2 sid (endSpan m n1 sid st) = endSpan m n1 sid st
    ∧ (endSpan m n1 sid st).pending.countP (fun sp => sp.spanId == sid)
        = st.pending.countP (fun sp => sp.spanId == sid) + 1 := by
  obtain ⟨sp, hsp⟩ := Option.isSome_iff_exists.mp hact
  constructor
  · show endSpan m n2 sid (endSpan m n1 sid st) = endSpan m n1 sid st
    have h1 : endSpan m n1 sid st
        = { activeSpans := st.activeSpans.filter (fun s => s.spanId != sid),
            pending := appendToQueue m st.pending
              { sp with endTime := some n1 } } := by
      unfold endSpan
      rw [hsp]
    rw [h1]
    unfold endSpan
    rw [find?_filter_ne_none]
  · have hp := List.find?_some hsp
    have h1 : (endSpan m n1 sid st).pending
        = st.pending ++ [{ sp with endTime := some n1 }] := by
      unfold endSpan
      rw [hsp]
      show appendToQueue m st.pending _ = _
      unfold appendToQueue
      rw [if_neg (by omega)]
    rw [h1, List.countP_append]
    simp [List.countP_cons, hp]

@[reducible] def spC4 : Span :=
  { spanId := "00000000000000a1",
    traceId := "000000000000000000000000000000b2",
    parentSpanId := none, name := "op", startTime := 3, endTime := none }

@[reducible] def stC4 : ClientState :=
  { activeSpans := [spC4], pending := [] }

/-- Modelled from the spec: the operations a producer can issue against the
Client Facade's span lifecycle (client.ts, not in this repository).  `tick`
stands for time passing between calls. -/
inductive FacadeOp where
  | startSpan (name : String) (parent : Option String)
  | endSpan (sid : String)
  | tick
deriving DecidableEq, Repr

/-- Modelled from the spec: the Client Facade state (client.ts, not in this
repository): the in-memory active-span table, the Durable Store's pending
span queue, the id-generation counter and a monotone clock. -/
structure FacadeState where
  activeSpans : List Span
  pending : List Span
  nextId : Nat
  clock : Nat
deriving DecidableEq, Repr

/-- Trace id for a new span: reuse the parent's trace id when the parent is
given and still active, else allocate a fresh 32-hex-char id. -/
def traceIdFor (st : FacadeState) (parent : Option String) : String :=
  match parent.bind (fun p => st.activeSpans.find? (fun sp => sp.spanId == p)) with
  | some psp => psp.traceId
  | none => genTraceId st.nextId

/-- Modelled from the spec: one Client Facade call (client.ts, not in this
repository).  `startSpan` allocates fresh ids, registers the span in the
active table with no end time; `endSpan` finalizes the end time, removes the
span from the table and appends the record to the pending queue; re-ending a
span absent from the table is a no-op. -/
def facadeStep (m : Nat) (st : FacadeState) (op : FacadeOp) : FacadeState :=
  match op with
  | FacadeOp.startSpan name parent =>
    let sp : Span :=
      { spanId := genSpanId st.nextId, traceId := traceIdFor st parent,
        parentSpanId := parent, name := name, startTime := st.clock,
        endTime := none }
    { st with activeSpans := sp :: st.activeSpans, nextId := st.nextId + 1,
              clock := st.clock + 1 }
  | FacadeOp.endSpan sid =>
    match st.activeSpans.find? (fun sp => sp.spanId == sid) with
    | some sp =>
      { st with activeSpans := st.activeSpans.filter (fun s => s.spanId != sid),
                pending := appendToQueue m st.pending
                  { sp with endTime := some st.clock },
                clock := st.clock + 1 }
    | none => { st with clock := st.clock + 1 }
  | FacadeOp.tick => { st with clock := st.clock + 1 }

def initFacade : FacadeState :=
  { activeSpans := [], pending := [], nextId := 0, clock := 0 }

def facadeRun (m : Nat) (ops : List FacadeOp) : FacadeState :=
  ops.foldl (facadeStep m) initFacade

/-- Both ids of a span are well formed (16 resp. 32 hex characters). -/
def spanIdsWf (sp : Span) : Prop :=
  wfHexId sp.spanId 16 ∧ wfHexId sp.traceId 32

/-- Facade invariant: active spans are unended, within the clock, and carry
well-formed ids; pending (persisted) spans carry well-formed ids and an end
time no earlier than their start time. -/
def facadeInv (st : FacadeState) : Prop :=
  (∀ sp ∈ st.activeSpans,
      sp.startTime ≤ st.clock ∧ sp.endTime = none ∧ spanIdsWf sp)
  ∧ (∀ sp ∈ st.pending,
      spanIdsWf sp ∧ ∃ e, sp.endTime = some e ∧ sp.startTime ≤ e)

theorem traceIdFor_wf (st : FacadeState) (parent : Option String)
    (hact : ∀ sp ∈ st.activeSpans,
      sp.startTime ≤ st.clock ∧ sp.endTime = none ∧ spanIdsWf sp) :
    wfHexId (traceIdFor st parent) 32 := by
  unfold traceIdFor
  split
  · next psp hfind =>
    have hmem : psp ∈ st.activeSpans := by
      cases parent with
      | none => simp at hfind
      | some p =>
        simp only [Option.some_bind] at hfind
        exact List.mem_of_find?_eq_some hfind
    exact ((hact psp hmem).2.2).2
  · exact hexOfWidth_wf 32 st.nextId

theorem facadeStep_inv (m : Nat) (st : FacadeState) (op : FacadeOp)
    (h : facadeInv st) : facadeInv (facadeStep m st op) := by
  obtain ⟨hact, hpend⟩ := h
  cases op with
  | startSpan name parent =>
    refine ⟨?_, hpend⟩
    intro sp hsp
    rcases List.mem_cons.mp hsp with heq | hmem
    · subst heq
      exact ⟨Nat.le_succ _, rfl,
        hexOfWidth_wf 16 st.nextId, traceIdFor_wf st parent hact⟩
    · obtain ⟨h1, h2, h3⟩ := hact sp hmem
      exact ⟨Nat.le_succ_of_le h1, h2, h3⟩
  | endSpan sid =>
    simp only [facadeStep]
    cases hfind : st.activeSpans.find? (fun sp => sp.spanId == sid) with
    | some sp =>
      have hmem := List.mem_of_find?_eq_some hfind
      obtain ⟨hst, hen, hids⟩ := hact sp hmem
      refine ⟨?_, ?_⟩
      · intro x hx
        have hx' := (List.mem_filter.mp hx).1
        obtain ⟨a1, a2, a3⟩ := hact x hx'
        exact ⟨Nat.le_succ_of_le a1, a2, a3⟩
      · intro x hx
        rcases mem_appendToQueue m st.pending _ x hx with hold | heq
        · exact hpend x hold
        · subst heq
          exact ⟨hids, st.clock, rfl, hst⟩
    | none =>
      refine ⟨?_, hpend⟩
      intro sp hsp
      obtain ⟨a1, a2, a3⟩ := hact sp hsp
      exact ⟨Nat.le_succ_of_le a1, a2, a3⟩
  | tick =>
    refine ⟨?_, hpend⟩
    intro sp hsp
    obtain ⟨a1, a2, a3⟩ := hact sp hsp
    exact ⟨Nat.le_succ_of_le a1, a2, a3⟩

theorem facadeRun_inv (m : Nat) (ops : List FacadeOp) :
    facadeInv (facadeRun m ops) := by
  unfold facadeRun
  have hgen : ∀ st : FacadeState, facadeInv st →
      facadeInv (ops.foldl (facadeStep m) st) := by
    induction ops with
    | nil => intro st hst; simpa using hst
    | cons o rest ih =>
      intro st hst
      exact ih (facadeStep m st o) (facadeStep_inv m st o hst)
  refine hgen initFacade ⟨?_, ?_⟩ <;> intro sp hsp <;> simp [initFacade] at hsp

/-- C5: every span record ever persisted to the pending queue (and hence
every span handed to the Transport, which only receives drained pending
items) has a 16-hex-character non-empty spanId, a 32-hex-character non-empty
traceId, and an end time that is set and no earlier than its start time; in
particular no active (end-time-less) span is ever persisted. -/
theorem facade_pending_wf (m : Nat) (ops : List FacadeOp) (sp : Span)
    (h : sp ∈ (facadeRun m ops).pending) :
    sp.spanId.length = 16 ∧ (∀ c ∈ sp.spanId.data, isHexChar c = true)
    ∧ sp.spanId ≠ ""
    ∧ sp.traceId.length = 32 ∧ (∀ c ∈ sp.traceId.data, isHexChar c = true)
    ∧ sp.traceId ≠ ""
    ∧ ∃ e, sp.endTime = some e ∧ sp.startTime ≤ e := by
  obtain ⟨⟨⟨hl16, hhex16⟩, hl32, hhex32⟩, he⟩ := (facadeRun_inv m ops).2 sp h
  refine ⟨hl16, hhex16, ?_, hl32, hhex32, ?_, he⟩
  · intro hcon; rw [hcon] at hl16; exact absurd hl16 (by decide)
  · intro hcon; rw [hcon] at hl32; exact absurd hl32 (by decide)

def opsW : List FacadeOp :=
  [FacadeOp.startSpan "a" none, FacadeOp.endSpan "0000000000000000"]

def spW : Span :=
  { spanId := "0000000000000000",
    traceId := "00000000000000000000000000000000",
    parentSpanId := none, name := "a", startTime := 0, endTime := some 1 }

theorem facade_pending_wf_witness :
    spW ∈ (facadeRun 5 opsW).pending
    ∧ (spW.spanId.length = 16
      ∧ (∀ c ∈ spW.spanId.data, isHexChar c = true)
      ∧ spW.spanId ≠ ""
      ∧ spW.traceId.length = 32
      ∧ (∀ c ∈ spW.traceId.data, isHexChar c = true)
      ∧ spW.traceId ≠ ""
      ∧ ∃ e, spW.endTime = some e ∧ spW.startTime ≤ e) := by
  have hrun : (facadeRun 5 opsW).pending = [spW] := by rfl
  have hmem : spW ∈ (facadeRun 5 opsW).pending := by
    rw [hrun]; exact List.mem_singleton.mpr rfl
  exact ⟨hmem, facade_pending_wf 5 opsW spW hmem⟩

theorem endSpan_idem_witness :
    endSpan 4 7 "00000000000000a1" (endSpan 4 5 "00000000000000a1" stC4)
      = endSpan 4 5 "00000000000000a1" stC4
    ∧ (endSpan 4 5 "00000000000000a1" stC4).pending.countP
        (fun sp => sp.spanId == "00000000000000a1")
        = stC4.pending.countP (fun sp => sp.spanId == "00000000000000a1")
          + 1 :=
  endSpan_idem 4 5 7 "00000000000000a1" stC4 (by decide) (by decide)

/-- Modelled from the spec: the internal error taxonomy (types.ts, not in
this repository): store inaccessible, malformed item, network failure. -/
inductive InternalErr where
  | storeUnavailable
  | encodingError
  | deliveryFailed
deriving DecidableEq, Repr

/-- Which internal subsystems are currently failing. -/
structure Failures where
  storage : Bool
  encoding : Bool
  network : Bool
deriving DecidableEq, Repr

/-- Modelled from the spec: a fallible Durable Store append; fails with
`storeUnavailable` when the platform store is inaccessible. -/
def storeAppend (f : Failures) (m : Nat) (q : List α) (x : α) :
    Except InternalErr (List α) :=
  if f.storage then Except.error InternalErr.storeUnavailable
  else Except.ok (appendToQueue m q x)

/-- Modelled from the spec: a fallible Durable Store overwrite of a single
value (user/tag/context slots). -/
def storeSet (f : Failures) (new : α) : Except InternalErr α :=
  if f.storage then Except.error InternalErr.storeUnavailable
  else Except.ok new

/-- Modelled from the spec: OTLP encoding of a batch, which can fail with an
`encodingError` on a malformed item. -/
def encodeBatch (f : Failures) (batch : List α) : Except InternalErr (List α) :=
  if f.encoding then Except.error InternalErr.encodingError
  else Except.ok batch

/-- Modelled from the spec: the HTTP POST of an encoded batch, which can fail
with `deliveryFailed` on a network or HTTP error. -/
def httpSend (f : Failures) (_batch : List α) : Except InternalErr Unit :=
  if f.network then Except.error InternalErr.deliveryFailed
  else Except.ok ()

/-- The public capture API surface of client.ts (not in this repository). -/
inductive CaptureOp where
  | startSpan (name : String)
  | endSpan (sid : String)
  | captureException (e : String)
  | captureMessage (msg : String)
  | captureSnapshot (name : String)
  | addBreadcrumb (b : Breadcrumb)
  | setUser (u : String)
  | setTag (k v : String)
  | setContext (k v : String)
  | flush
deriving DecidableEq, Repr

/-- Modelled from the spec: the whole agent state a public capture call can
touch. -/
structure AgentState where
  activeSpans : List Span
  pendingSpans : List Span
  pendingExceptions : List String
  pendingSnapshots : List String
  breadcrumbs : List Breadcrumb
  user : Option String
  tags : List (String × String)
  contexts : List (String × String)
  nextId : Nat
deriving DecidableEq, Repr

/-- Modelled from the spec: one public capture API call of client.ts (not in
this repository) under a given failure configuration.  Every internal
failure (storage, encoding, network) is absorbed: the failing sub-operation's
effect is skipped (item lost, batch kept pending for retry) and the call
completes normally; an error result would model an exception propagating to
the caller. -/
def publicStep (m now : Nat) (f : Failures) (st : AgentState)
    (op : CaptureOp) : Except String AgentState :=
  match op with
  | CaptureOp.startSpan name =>
    let sp : Span :=
      { spanId := genSpanId st.nextId, traceId := genTraceId st.nextId,
        parentSpanId := none, name := name, startTime := now,
        endTime := none }
    Except.ok { st with activeSpans := sp :: st.activeSpans,
                        nextId := st.nextId + 1 }
  | CaptureOp.endSpan sid =>
    match st.activeSpans.find? (fun sp => sp.spanId == sid) with
    | some sp =>
      match storeAppend f m st.pendingSpans { sp with endTime := some now } with
      | Except.ok q =>
        Except.ok { st with
          activeSpans := st.activeSpans.filter (fun s => s.spanId != sid),
          pendingSpans := q }
      | Except.error _ =>
        Except.ok { st with
          activeSpans := st.activeSpans.filter (fun s => s.spanId != sid) }
    | none => Except.ok st
  | CaptureOp.captureException e =>
    match storeAppend f m st.pendingExceptions e with
    | Except.ok q => Except.ok { st with pendingExceptions := q }
    | Except.error _ => Except.ok st
  | CaptureOp.captureMessage msg =>
    match storeAppend f m st.pendingExceptions msg with
    | Except.ok q => Except.ok { st with pendingExceptions := q }
    | Except.error _ => Except.ok st
  | CaptureOp.captureSnapshot name =>
    match storeAppend f m st.pendingSnapshots name with
    | Except.ok q => Except.ok { st with pendingSnapshots := q }
    | Except.error _ => Except.ok st
  | CaptureOp.addBreadcrumb b =>
    Except.ok { st with breadcrumbs := addBreadcrumb st.breadcrumbs b }
  | CaptureOp.setUser u =>
    match storeSet f (some u) with
    | Except.ok v => Except.ok { st with user := v }
    | Except.error _ => Except.ok st
  | CaptureOp.setTag k v =>
    match storeSet f ((k, v) :: st.tags) with
    | Except.ok t => Except.ok { st with tags := t }
    | Except.error _ => Except.ok st
  | CaptureOp.setContext k v =>
    match storeSet f ((k, v) :: st.contexts) with
    | Except.ok t => Except.ok { st with contexts := t }
    | Except.error _ => Except.ok st
  | CaptureOp.flush =>
    match encodeBatch f st.pendingSpans with
    | Except.ok batch =>
      match httpSend f batch with
      | Except.ok _ => Except.ok { st with pendingSpans := [] }
      | Except.error _ => Except.ok st
    | Except.error _ => Except.ok st

/-- C6: no public capture API call ever propagates an internal failure to the
caller: whatever combination of storage, encoding or network failures is in
effect, every call completes with a normal result (never an error), only
degrading the state it produces. -/
theorem public_api_no_throw (m now : Nat) (f : Failures) (st : AgentState)
    (op : CaptureOp) :
    ∃ st', publicStep m now f st op = Except.ok st' := by
  cases op <;>
    simp only [publicStep, storeAppend, storeSet, encodeBatch, httpSend] <;>
    (repeat' split) <;>
    exact ⟨_, rfl⟩

/-- Modelled from ARCHITECTURE.md (src/ARCHITECTURE.md, "Sampling:
Configurable via `sampleRate` (0.0-1.0)" with default 1.0 documented as
100%): the capture-time sampling gate of client.ts (not in this repository).
A capture proceeds exactly when the uniform draw in [0,1) falls below the
configured rate — so rate 1.0 captures everything and rate 0.0 nothing — and
the gated-off branch persists nothing while still returning the span
handle. -/
def gatedCapture (sampleRate draw : ℚ) (m : Nat) (pending : List Span)
    (sp : Span) : List Span × Span :=
  if draw < sampleRate then (appendToQueue m pending sp, sp)
  else (pending, sp)

def spC7 : Span :=
  { spanId := "00000000000000c3",
    traceId := "000000000000000000000000000000d4",
    parentSpanId := none, name := "g", startTime := 0, endTime := some 0 }

/-- C7 counterexample: at the default `sampleRate` of 1.0 (100% capture per
ARCHITECTURE.md) a draw of 0 is below the threshold, yet the capture is not a
silent no-op — the record is persisted to the pending queue.  This refutes
the claim as stated (draw below threshold ⇒ nothing persisted). -/
theorem sampling_gate_cex :
    ((0 : ℚ) < 1)
    ∧ (gatedCapture 1 0 10 [] spC7).1 = [spC7]
    ∧ ([spC7] : List Span) ≠ [] := by
  refine ⟨by norm_num, ?_, by simp⟩
  unfold gatedCapture
  rw [if_pos (by norm_num : (0 : ℚ) < 1)]
  norm_num [appendToQueue]

/-- C7 (amended): capture operations are gated by the sample rate with the
comparison the other way around: when the draw is below `sampleRate` the
operation proceeds (the record is enqueued under the overflow policy), and
when the draw is at or above `sampleRate` the call is a silent no-op that
persists nothing; in both cases the same span handle is returned, so call
sites behave identically. -/
theorem sampling_gate_spec (sampleRate draw : ℚ) (m : Nat)
    (pending : List Span) (sp : Span) :
    (gatedCapture sampleRate draw m pending sp).2 = sp
    ∧ (gatedCapture sampleRate draw m pending sp).1
        = (if draw < sampleRate then appendToQueue m pending sp else pending)
    ∧ sp ∈ appendToQueue m pending sp := by
  refine ⟨?_, ?_, self_mem_appendToQueue m pending sp⟩ <;>
    unfold gatedCapture <;> split <;> rfl

end Tracekit
